import Mathlib

/-!
Verification of the playlist maintenance core in
`src/youtube_manager/playlist.rs`.

Shallow embedding conventions:
* `DateTime<FixedOffset>` values are modelled as `Int` (chrono's `Ord`
  compares instants, a linear order; only the order matters to this code).
* Rust `Option<T>` is `Option T`; `String` stays `String`.
* `Vec::sort_by` is a stable sort by a comparator; we model it with
  `List.mergeSort` over `le v w := (cmpItems v w).isLE`, which is the stable
  sort by the same total preorder.
* The fallible parse `DateTime::parse_from_rfc3339(..).unwrap()` is modelled
  with `Except`: `unwrap` on a parse failure aborts `items()`.
* Remote calls are modelled as an `Action` trace; the remote playlist state
  is a `List Item`, and a reorder call moves the addressed entry to the given
  zero-based position.
-/

namespace StreamInspector

/-- Item record from playlist.rs: one playlist entry's fetched state. -/
structure Item where
  video_id : String
  playlist_item_id : String
  title : String
  scheduled_start_time : Option Int
  actual_start_time : Option Int
  blocked : Bool
deriving DecidableEq, Repr, Inhabited

/-- The comparator passed to `sort_by` in `sort_items` (playlist.rs:283-319):
streamed items first, newest `actual_start_time` first; then unstreamed
scheduled items, newest `scheduled_start_time` first; then the rest, equal. -/
def cmpItems (v w : Item) : Ordering :=
  match v.actual_start_time, w.actual_start_time with
  | some a, some b =>
    -- Order streamed items in reverse chronological order
    (compare a b).swap
  | some _, none =>
    -- Order streamed items before unstreamed items
    .lt
  | none, some _ => .gt
  | none, none =>
    match v.scheduled_start_time, w.scheduled_start_time with
    | some a, some b =>
      -- Order unstreamed, scheduled items in reverse chronological order
      (compare a b).swap
    | some _, none =>
      -- Order unstreamed, scheduled items before unstreamed, unscheduled items
      .lt
    | none, some _ => .gt
    | none, none =>
      -- Leave the order of unstreamed, unscheduled items alone
      .eq

/-- Relation "v may come before w": the comparator did not answer Greater. -/
def itemLE (v w : Item) : Bool := (cmpItems v w).isLE

/-- Function sort_items (playlist.rs:283): `items.sort_by(cmpItems)`.
Rust's `sort_by` is a stable sort, as is `List.mergeSort`; a stable sort by a
total preorder is unique, so the two agree. -/
def sort_items (l : List Item) : List Item := l.mergeSort itemLE

/-- Tier of an item in the canonical order: 0 = streamed (Tier A),
1 = unstreamed scheduled (Tier B), 2 = neither timestamp (Tier C). -/
def tier (i : Item) : Nat :=
  if i.actual_start_time.isSome then 0
  else if i.scheduled_start_time.isSome then 1
  else 2

/-- The decision the `prune` loop body takes for one item
(playlist.rs:193-226): exactly one reason, or keep. -/
inductive Decision where
  | keep
  | removeBlocked
  | removeSurplus
  | removeUnscheduled
deriving DecidableEq, Repr

/-- The classifier pass of `prune` (playlist.rs:191-227): walk the fetched
items with running streamed-count `n`, deciding each item's fate.
`n` is incremented only in the non-blocked, streamed branch, exactly as in
the source (`n += 1; if n > max_streamed { remove }`). -/
def classify (max_streamed : Nat) : Nat → List Item → List (Item × Decision)
  | _, [] => []
  | n, i :: rest =>
    if i.blocked then
      (i, .removeBlocked) :: classify max_streamed n rest
    else if i.actual_start_time.isSome then
      (i, if n + 1 > max_streamed then .removeSurplus else .keep)
        :: classify max_streamed (n + 1) rest
    else if i.scheduled_start_time.isNone then
      (i, .removeUnscheduled) :: classify max_streamed n rest
    else
      (i, .keep) :: classify max_streamed n rest

/-! ## Orchestration: `sort` and `prune` as remote-call traces

The remote data source is an external collaborator; its durable state is the
playlist, modelled as a `List Item`.  `sort`/`prune` are modelled by the
sequence of remote calls they issue (`Action` trace) plus the state those
calls leave behind. -/

/-- One observable action of `sort`/`prune` against the outside world:
a read of the playlist, a reorder write (`playlist_items().update` with a
zero-based `position`), a delete write (`playlist_items().delete`), or a
line of reporting output (`eprintln`). -/
inductive Action where
  | fetch
  | reorder (playlist_item_id : String) (position : Nat)
  | delete (playlist_item_id : String)
  | report
deriving DecidableEq, Repr

/-- Whether an action mutates the remote playlist. -/
def Action.isMutating : Action → Bool
  | .reorder _ _ => true
  | .delete _ => true
  | _ => false

/-- Modelled from the spec: the remote collaborator's reorder semantics
(`reorder_entry(entry_id, .., position)`, spec §6/§9) — the addressed entry
is moved to the given zero-based position; the YouTube API itself is not
part of this repository.  The entry with the given playlist-item id is
removed from wherever it sits and reinserted at `pos`. -/
def moveEntry (s : List Item) (pid : String) (pos : Nat) : List Item :=
  match s.find? (fun i => i.playlist_item_id == pid) with
  | none => s
  | some it => (s.eraseP (fun i => i.playlist_item_id == pid)).insertIdx pos it

/-- Effect of one action on the remote playlist state. -/
def applyAct (s : List Item) : Action → List Item
  | .reorder pid pos => moveEntry s pid pos
  | .delete pid => s.eraseP (fun i => i.playlist_item_id == pid)
  | .fetch => s
  | .report => s

/-- Effect of a trace of actions on the remote playlist state. -/
def applyActs (s : List Item) (acts : List Action) : List Item :=
  acts.foldl applyAct s

/-- The already-sorted check of `sort` (playlist.rs:152): the freshly sorted
item list is compared with the fetched one by full `Item` equality. -/
def sortReportsAlready (st : List Item) : Bool := sort_items st == st

/-- The trace of `sort` (playlist.rs:148-186): fetch the items; if sorting
leaves them unchanged, only report; under dry-run, only report the would-be
order; otherwise issue one reorder per item, position `n` for the item at
sorted index `n`, in sorted order. -/
def sortActions (dry_run : Bool) (st : List Item) : List Action :=
  let sorted := sort_items st
  .fetch ::
    (if sorted = st then [.report]
     else if dry_run then [.report]
     else sorted.enum.map fun p => .reorder p.2.playlist_item_id p.1)

/-- The per-item tail of `prune`'s loop (playlist.rs:193-226): every removal
decision is reported; the delete call is issued only when not dry-run. -/
def decisionActions (dry_run : Bool) (p : Item × Decision) : List Action :=
  match p.2 with
  | .keep => []
  | _ => if dry_run then [.report] else [.report, .delete p.1.playlist_item_id]

/-- The playlist state `prune`'s second fetch returns: the state after the
initial `sort` pass has acted on the remote. -/
def pruneWalk (dry_run : Bool) (st : List Item) : List Item :=
  applyActs st (sortActions dry_run st)

/-- The trace of `prune` (playlist.rs:188-229): run `sort`, re-fetch, then
walk the fetched items with the classifier, emitting each decision's
actions in walk order. -/
def pruneActions (dry_run : Bool) (max_streamed : Nat) (st : List Item) :
    List Action :=
  sortActions dry_run st ++
    .fetch :: (classify max_streamed 0 (pruneWalk dry_run st)).flatMap
      (decisionActions dry_run)

/-! ## Fetch and parse: `items()` -/

/-- Raw `liveStreamingDetails` of a fetched video: timestamp fields are raw
RFC3339 strings, possibly absent. -/
structure RawLiveStreamingDetails where
  scheduled_start_time : Option String
  actual_start_time : Option String

/-- Raw `regionRestriction` of a fetched video. -/
structure RawRegionRestriction where
  blocked : Option (List String)

/-- Raw `contentDetails` of a fetched video. -/
structure RawContentDetails where
  region_restriction : Option RawRegionRestriction

/-- One raw video record from the per-video detail lookup. -/
structure RawVideo where
  live_streaming_details : Option RawLiveStreamingDetails
  content_details : Option RawContentDetails

/-- One raw playlist entry together with the video list its per-video detail
lookup returned (`v.items` in playlist.rs:108, empty for e.g. a deleted
video). -/
structure RawEntry where
  video_id : String
  playlist_item_id : String
  title : String
  videos : List RawVideo

/-- Timestamp conversion `details.xxx_start_time.as_ref().map(parse_from_rfc3339(..).unwrap())`
(playlist.rs:114-121): an absent string stays absent; a present string must
parse, and a parse failure aborts (the `unwrap` panic). The RFC3339 parser
itself lives in the external chrono crate, so it is a parameter `parse`;
`parse s = none` means `s` is malformed. -/
def parseOptTime (parse : String → Option Int) :
    Option String → Except String (Option Int)
  | none => .ok none
  | some s =>
    match parse s with
    | some t => .ok (some t)
    | none => .error s

/-- The `blocked` computation of the `items()` loop (playlist.rs:123-129):
true iff the whole `contentDetails.regionRestriction.blocked` chain is
present and the block list is non-empty; otherwise the default `false`
stands. -/
def blockedOf (v : RawVideo) : Bool :=
  match v.content_details with
  | none => false
  | some cd =>
    match cd.region_restriction with
    | none => false
    | some rr =>
      match rr.blocked with
      | none => false
      | some bl => !bl.isEmpty

/-- Construction of one `Item` inside the `items()` loop
(playlist.rs:94-131): defaults, then, when the detail lookup returned a
non-empty video list, timestamps from `liveStreamingDetails` (strictly
parsed, in source order: scheduled first, then actual) and `blocked` from
a non-empty region-restriction block list. -/
def mkItem (parse : String → Option Int) (e : RawEntry) :
    Except String Item :=
  let base : Item :=
    { video_id := e.video_id
      playlist_item_id := e.playlist_item_id
      title := e.title
      scheduled_start_time := none
      actual_start_time := none
      blocked := false }
  match e.videos.head? with
  | none => .ok base
  | some v =>
    match v.live_streaming_details with
    | none => .ok { base with blocked := blockedOf v }
    | some details =>
      match parseOptTime parse details.scheduled_start_time with
      | .error s => .error s
      | .ok sst =>
        match parseOptTime parse details.actual_start_time with
        | .error s => .error s
        | .ok ast =>
          .ok { base with
                scheduled_start_time := sst
                actual_start_time := ast
                blocked := blockedOf v }

/-- Function items (playlist.rs:69-146): build one `Item` per fetched playlist
entry, in order; any failure aborts the whole call. -/
def itemsOf (parse : String → Option Int) (entries : List RawEntry) :
    Except String (List Item) :=
  entries.mapM (mkItem parse)

/-! ## Comparator lemmas -/

theorem swap_compare_isLE (a b : Int) :
    ((compare a b).swap).isLE = decide (b ≤ a) := by
  rcases lt_trichotomy a b with h | h | h
  · rw [compare_lt_iff_lt.2 h]
    simp [Ordering.swap, Ordering.isLE, not_le_of_lt h]
  · subst h
    rw [compare_eq_iff_eq.2 rfl]
    simp [Ordering.swap, Ordering.isLE]
  · rw [compare_gt_iff_gt.2 h]
    simp [Ordering.swap, Ordering.isLE, le_of_lt h]

/-- Explicit description of `itemLE`: what "not Greater" means per tier. -/
theorem itemLE_eq (v w : Item) : itemLE v w =
    (match v.actual_start_time, w.actual_start_time with
     | some a, some b => decide (b ≤ a)
     | some _, none => true
     | none, some _ => false
     | none, none =>
       match v.scheduled_start_time, w.scheduled_start_time with
       | some a, some b => decide (b ≤ a)
       | some _, none => true
       | none, some _ => false
       | none, none => true) := by
  unfold itemLE cmpItems
  rcases v.actual_start_time with _ | a <;> rcases w.actual_start_time with _ | b
  · rcases v.scheduled_start_time with _ | c <;>
      rcases w.scheduled_start_time with _ | d
    · simp [Ordering.isLE]
    · simp [Ordering.isLE]
    · simp [Ordering.isLE]
    · simp [swap_compare_isLE]
  · simp [Ordering.isLE]
  · simp [Ordering.isLE]
  · simp [swap_compare_isLE]

theorem itemLE_total (v w : Item) : itemLE v w || itemLE w v := by
  rw [itemLE_eq, itemLE_eq]
  rcases v.actual_start_time with _ | a <;> rcases w.actual_start_time with _ | b
  · rcases v.scheduled_start_time with _ | c <;>
      rcases w.scheduled_start_time with _ | d <;> simp <;> omega
  · simp
  · simp
  · simp; omega

theorem itemLE_trans (u v w : Item) (h1 : itemLE u v) (h2 : itemLE v w) :
    itemLE u w := by
  rw [itemLE_eq] at h1 h2 ⊢
  rcases hu : u.actual_start_time with _ | a <;>
    rcases hv : v.actual_start_time with _ | b <;>
    rcases hw : w.actual_start_time with _ | c <;>
    rcases hus : u.scheduled_start_time with _ | d <;>
    rcases hvs : v.scheduled_start_time with _ | e <;>
    rcases hws : w.scheduled_start_time with _ | f <;>
    simp_all <;> omega

theorem sort_items_perm (l : List Item) : List.Perm (sort_items l) l :=
  List.mergeSort_perm l itemLE

theorem sort_items_sorted (l : List Item) :
    (sort_items l).Pairwise (fun v w => itemLE v w = true) :=
  @List.sorted_mergeSort Item itemLE
    (fun a b c => itemLE_trans a b c) (fun a b => itemLE_total a b) l

/-- Canonical-order relation between two items, stated in the spec's tier
vocabulary: tiers never decrease; two streamed items appear newest-first;
two unstreamed scheduled items appear newest-first. -/
def canonOrd (v w : Item) : Bool :=
  decide (tier v ≤ tier w) &&
  (match v.actual_start_time, w.actual_start_time with
   | some a, some b => decide (b ≤ a)
   | _, _ => true) &&
  (match v.actual_start_time, w.actual_start_time,
         v.scheduled_start_time, w.scheduled_start_time with
   | none, none, some a, some b => decide (b ≤ a)
   | _, _, _, _ => true)

theorem itemLE_canonOrd (v w : Item) (h : itemLE v w = true) :
    canonOrd v w = true := by
  rw [itemLE_eq] at h
  rcases hv : v.actual_start_time with _ | a <;>
    rcases hw : w.actual_start_time with _ | b <;>
    rcases hvs : v.scheduled_start_time with _ | c <;>
    rcases hws : w.scheduled_start_time with _ | d <;>
    simp_all [canonOrd, tier]

/-- C1: the sorted output satisfies the canonical three-tier order: along
the output, tiers are nondecreasing (so every Tier A item precedes every
Tier B or C item, and every Tier B item precedes every Tier C item), two
Tier A items appear in descending `actual_start_time` order, and two
Tier B items appear in descending `scheduled_start_time` order. -/
theorem sort_items_canonical_order (l : List Item) :
    (sort_items l).Pairwise (fun v w => canonOrd v w = true) :=
  (sort_items_sorted l).imp (fun h => itemLE_canonOrd _ _ h)

/-- C8: the sort is idempotent — sorting its own output changes nothing. -/
theorem sort_items_idempotent (l : List Item) :
    sort_items (sort_items l) = sort_items l :=
  List.mergeSort_of_sorted (sort_items_sorted l)

/-! ## Classifier lemmas -/

/-- The classifier walks every item exactly once, in input order, attaching
exactly one decision to each. -/
theorem classify_fst (k n : Nat) (l : List Item) :
    (classify k n l).map Prod.fst = l := by
  induction l generalizing n with
  | nil => rfl
  | cons i rest ih =>
    unfold classify
    split
    · simpa using ih n
    · split
      · simpa using ih (n + 1)
      · split
        · simpa using ih n
        · simpa using ih n

/-- C3: a blocked item is always flagged with reason "blocked" — the
`blocked` check comes first in the loop, before the surplus-streamed and
unscheduled checks, so no other reason is ever attached to it. -/
theorem classify_blocked_precedence (k n : Nat) (l : List Item)
    (p : Item × Decision) (hp : p ∈ classify k n l)
    (hb : p.1.blocked = true) : p.2 = .removeBlocked := by
  induction l generalizing n with
  | nil => simp [classify] at hp
  | cons i rest ih =>
    unfold classify at hp
    split at hp
    · rcases List.mem_cons.1 hp with h | h
      · rw [h]
      · exact ih n h
    · split at hp
      · rcases List.mem_cons.1 hp with h | h
        · rw [h] at hb; simp_all

        · exact ih (n + 1) h
      · split at hp
        · rcases List.mem_cons.1 hp with h | h
          · rw [h] at hb; simp_all
          · exact ih n h
        · rcases List.mem_cons.1 hp with h | h
          · rw [h] at hb; simp_all
          · exact ih n h

/-- An item with neither timestamp gets "unscheduled" unless the earlier
blocked check claims it (shared helper). -/
theorem classify_tierC_decision (k n : Nat) (l : List Item)
    (p : Item × Decision) (hp : p ∈ classify k n l)
    (ha : p.1.actual_start_time = none)
    (hs : p.1.scheduled_start_time = none) :
    p.2 = if p.1.blocked then .removeBlocked else .removeUnscheduled := by
  induction l generalizing n with
  | nil => simp [classify] at hp
  | cons i rest ih =>
    unfold classify at hp
    split at hp
    · rcases List.mem_cons.1 hp with h | h
      · rw [h]; simp_all
      · exact ih n h
    · split at hp
      · rcases List.mem_cons.1 hp with h | h
        · rw [h] at ha ⊢; simp_all
        · exact ih (n + 1) h
      · split at hp
        · rcases List.mem_cons.1 hp with h | h
          · rw [h]; simp_all
          · exact ih n h
        · rcases List.mem_cons.1 hp with h | h
          · rw [h] at hs ⊢; simp_all
          · exact ih n h

/-- C5: for every item with both `scheduled_start_time` and
`actual_start_time` absent, the classifier flags it for removal with reason
"unscheduled" — unless it is blocked, in which case the earlier blocked
check already claimed it. -/
theorem classify_unscheduled (k n : Nat) (l : List Item)
    (p : Item × Decision) (hp : p ∈ classify k n l)
    (ha : p.1.actual_start_time = none)
    (hs : p.1.scheduled_start_time = none) :
    p.2 = if p.1.blocked then .removeBlocked else .removeUnscheduled :=
  classify_tierC_decision k n l p hp ha hs

/-- Non-blocked streamed item: the items the running cap counter counts. -/
def streamedNB (i : Item) : Bool := !i.blocked && i.actual_start_time.isSome

/-- Relation "v was streamed no earlier than w" (both streamed). -/
def actualGE (v w : Item) : Bool :=
  match v.actual_start_time, w.actual_start_time with
  | some a, some b => decide (b ≤ a)
  | _, _ => false

/-- Decisions along the non-blocked streamed subsequence, for an arbitrary
initial counter `n`: the first `k - n` such items (at most) are kept, all
later ones are flagged surplus. -/
theorem classify_streamed_decisions (k : Nat) (l : List Item) (n : Nat) :
    ((classify k n l).filter (fun p => streamedNB p.1)).map Prod.snd =
      List.replicate (min (k - n) (l.filter streamedNB).length) .keep ++
        List.replicate ((l.filter streamedNB).length - (k - n))
          .removeSurplus := by
  induction l generalizing n with
  | nil => simp [classify]
  | cons i rest ih =>
    unfold classify
    by_cases hb : i.blocked
    · have hnb : streamedNB i = false := by simp [streamedNB, hb]
      simp only [if_pos hb, List.filter_cons, hnb]
      simpa [hnb] using ih n
    · by_cases ha : i.actual_start_time.isSome
      · have hnb : streamedNB i = true := by simp [streamedNB, hb, ha]
        simp only [if_neg hb, if_pos ha, List.filter_cons, hnb]
        by_cases hk : n + 1 > k
        · have h0 : k - n = 0 := by omega
          have h1 : k - (n + 1) = 0 := by omega
          simp only [if_pos hk, List.filter_cons, hnb, if_true]
          rw [List.map_cons, ih (n + 1), h0, h1]
          simp [List.replicate_succ]
        · have h0 : k - n = (k - (n + 1)) + 1 := by omega
          simp only [if_neg hk, List.filter_cons, hnb, if_true]
          rw [List.map_cons, ih (n + 1), h0, List.length_cons]
          have h2 : min ((k - (n + 1)) + 1) ((rest.filter streamedNB).length + 1)
              = (min (k - (n + 1)) (rest.filter streamedNB).length) + 1 := by
            omega
          have h3 : (rest.filter streamedNB).length + 1 - ((k - (n + 1)) + 1)
              = (rest.filter streamedNB).length - (k - (n + 1)) := by
            omega
          simp [h2, h3, List.replicate_succ]
      · have hnb : streamedNB i = false := by simp [streamedNB, ha]
        by_cases hsch : i.scheduled_start_time.isNone
        · simp only [if_neg hb, if_neg ha, if_pos hsch, List.filter_cons, hnb]
          simpa [hnb] using ih n
        · simp only [if_neg hb, if_neg ha, if_neg hsch, List.filter_cons, hnb]
          simpa [hnb] using ih n

theorem pairwise_filter_bool {α : Type} {R : α → α → Prop} {p : α → Bool}
    {l : List α}
    (h : l.Pairwise (fun a b => p a = true → p b = true → R a b)) :
    (l.filter p).Pairwise R := by
  induction l with
  | nil => simp
  | cons a l ih =>
    rcases List.pairwise_cons.1 h with ⟨ha, hl⟩
    rw [List.filter_cons]
    split
    · refine List.pairwise_cons.2 ⟨?_, ih hl⟩
      intro b hb
      rcases List.mem_filter.1 hb with ⟨hbl, hpb⟩
      exact ha b hbl (by assumption) hpb
    · exact ih hl

/-- C2: on a canonically sorted input, the classifier keeps exactly the
`min k m` first — i.e. most recently streamed — non-blocked streamed items
(of `m` such items in total) and flags every later one as surplus streamed;
the non-blocked streamed subsequence is indeed in descending
`actual_start_time` order; and `max_streamed = 0` keeps no streamed item. -/
theorem classify_cap_boundary (k : Nat) (l : List Item)
    (hsorted : l.Pairwise (fun v w => itemLE v w = true)) :
    (((classify k 0 l).filter (fun p => streamedNB p.1)).map Prod.snd =
      List.replicate (min k (l.filter streamedNB).length) .keep ++
        List.replicate ((l.filter streamedNB).length - k) .removeSurplus)
    ∧ (l.filter streamedNB).Pairwise (fun v w => actualGE v w = true)
    ∧ (k = 0 →
        ((classify 0 0 l).filter (fun p => streamedNB p.1)).map Prod.snd =
          List.replicate ((l.filter streamedNB).length) .removeSurplus) := by
  refine ⟨by simpa using classify_streamed_decisions k l 0, ?_, ?_⟩
  · refine pairwise_filter_bool (hsorted.imp ?_)
    intro v w h hv hw
    rw [itemLE_eq] at h
    simp only [streamedNB, Bool.and_eq_true, Bool.not_eq_true',
      Option.isSome_iff_exists] at hv hw
    obtain ⟨_, a, hva⟩ := hv
    obtain ⟨_, b, hwb⟩ := hw
    rw [hva, hwb] at h
    simp only [actualGE, hva, hwb]
    simpa using h
  · intro hk
    subst hk
    simpa using classify_streamed_decisions 0 l 0

/-! ## Concrete fixtures (modelled on the unit tests in playlist.rs) -/

/-- Streamed item, newest. -/
def vA1 : Item :=
  { video_id := "v1", playlist_item_id := "p1", title := "video 1"
    scheduled_start_time := some 55, actual_start_time := some 92
    blocked := false }

/-- Streamed item, older. -/
def vA2 : Item :=
  { video_id := "v2", playlist_item_id := "p2", title := "video 2"
    scheduled_start_time := some 54, actual_start_time := some 91
    blocked := false }

/-- Unstreamed, scheduled item. -/
def vB1 : Item :=
  { video_id := "v3", playlist_item_id := "p3", title := "video 3"
    scheduled_start_time := some 60, actual_start_time := none
    blocked := false }

/-- Unstreamed, unscheduled item. -/
def vC1 : Item :=
  { video_id := "v4", playlist_item_id := "p4", title := "video 4"
    scheduled_start_time := none, actual_start_time := none
    blocked := false }

/-- Blocked item that is also streamed newest of all — over any cap. -/
def vBlk : Item :=
  { video_id := "v5", playlist_item_id := "p5", title := "video 5"
    scheduled_start_time := some 50, actual_start_time := some 99
    blocked := true }

theorem classify_cap_boundary_witness :
    ([vA1, vA2, vB1, vC1].Pairwise (fun v w => itemLE v w = true))
    ∧ ((((classify 1 0 [vA1, vA2, vB1, vC1]).filter
          (fun p => streamedNB p.1)).map Prod.snd =
        List.replicate
          (min 1 ([vA1, vA2, vB1, vC1].filter streamedNB).length)
          .keep ++
          List.replicate
            (([vA1, vA2, vB1, vC1].filter streamedNB).length - 1)
            .removeSurplus)
      ∧ ([vA1, vA2, vB1, vC1].filter streamedNB).Pairwise
          (fun v w => actualGE v w = true)
      ∧ ((1 : Nat) = 0 →
          ((classify 0 0 [vA1, vA2, vB1, vC1]).filter
            (fun p => streamedNB p.1)).map Prod.snd =
            List.replicate
              (([vA1, vA2, vB1, vC1].filter streamedNB).length)
              .removeSurplus)) :=
  ⟨by decide, classify_cap_boundary 1 [vA1, vA2, vB1, vC1] (by decide)⟩

theorem classify_blocked_precedence_witness :
    ((vBlk, Decision.removeBlocked) ∈ classify 1 0 [vBlk, vA1])
    ∧ (vBlk, Decision.removeBlocked).1.blocked = true
    ∧ (vBlk, Decision.removeBlocked).2 = .removeBlocked :=
  ⟨by decide, by decide,
    classify_blocked_precedence 1 0 [vBlk, vA1]
      (vBlk, Decision.removeBlocked) (by decide) (by decide)⟩

theorem classify_unscheduled_witness :
    ((vC1, Decision.removeUnscheduled) ∈ classify 1 0 [vA1, vC1])
    ∧ (vC1, Decision.removeUnscheduled).1.actual_start_time = none
    ∧ (vC1, Decision.removeUnscheduled).1.scheduled_start_time = none
    ∧ (vC1, Decision.removeUnscheduled).2 =
        (if (vC1, Decision.removeUnscheduled).1.blocked then
          Decision.removeBlocked
        else Decision.removeUnscheduled) :=
  ⟨by decide, by decide, by decide,
    classify_unscheduled 1 0 [vA1, vC1]
      (vC1, Decision.removeUnscheduled) (by decide) (by decide) (by decide)⟩

/-! ## Sort orchestration: the already-sorted check -/

/-- One video appearing twice in the playlist (distinct entries, same
`video_id`), streamed at two different times — older entry first. -/
def vDup1 : Item :=
  { video_id := "vd", playlist_item_id := "pd1", title := "dup 1"
    scheduled_start_time := none, actual_start_time := some 1
    blocked := false }

/-- Second entry of the duplicated video, streamed later. -/
def vDup2 : Item :=
  { video_id := "vd", playlist_item_id := "pd2", title := "dup 2"
    scheduled_start_time := none, actual_start_time := some 2
    blocked := false }

theorem sort_items_dup_pair : sort_items [vDup1, vDup2] = [vDup2, vDup1] := by
  simp [sort_items, List.mergeSort, itemLE, cmpItems, vDup1, vDup2,
    List.merge, Ordering.isLE, Ordering.swap,
    compare_lt_iff_lt.2 (show (1 : Int) < 2 by norm_num)]

/-- C6 counterexample: with the same video appearing twice, the fetched
sequence `[vDup1, vDup2]` has exactly the same `video_id` sequence as its
canonical sort, yet `sort` does not report "already sorted" and does issue
remote writes — the code compares whole `Item` sequences, not `video_id`
sequences. -/
theorem sort_already_videoid_counterexample :
    ((sort_items [vDup1, vDup2]).map Item.video_id
        = [vDup1, vDup2].map Item.video_id)
    ∧ ¬(sortReportsAlready [vDup1, vDup2] = true
        ∧ (sortActions false [vDup1, vDup2]).all
            (fun a => !a.isMutating) = true) := by
  constructor
  · rw [sort_items_dup_pair]; rfl
  · intro h
    have hb : sortReportsAlready [vDup1, vDup2] = true := h.1
    rw [sortReportsAlready, sort_items_dup_pair] at hb
    exact absurd (by simpa using hb) (by decide)

/-- C6 amended: `sort` reports "already sorted" and issues no remote writes
iff the canonically sorted sequence equals the fetched sequence as a
sequence of whole `Item`s (order-sensitive); otherwise, in non-dry-run
mode, the item at sorted index `i` is issued a reorder with zero-based
position `i`, the actions appearing in sorted order after the fetch. -/
theorem sort_already_check (st : List Item) :
    (sortReportsAlready st = true ↔ sort_items st = st)
    ∧ (sortReportsAlready st = true →
        (sortActions false st).all (fun a => !a.isMutating) = true)
    ∧ (sort_items st ≠ st →
        ∀ i it, (sort_items st)[i]? = some it →
          (sortActions false st)[i + 1]? =
            some (.reorder it.playlist_item_id i)) := by
  refine ⟨beq_iff_eq, ?_, ?_⟩
  · intro h
    rw [sortReportsAlready, beq_iff_eq] at h
    simp [sortActions, h, Action.isMutating]
  · intro hne i it hit
    simp only [sortActions, if_neg hne]
    rw [List.getElem?_cons_succ]
    simp [List.enum, hit, Action.isMutating]

/-- Concrete evaluation: sorting the out-of-order pair `[vB1, vA1]` puts the
streamed item first. -/
theorem sort_items_pair_BA : sort_items [vB1, vA1] = [vA1, vB1] := by
  simp [sort_items, List.mergeSort, itemLE, cmpItems, vA1, vB1,
    List.merge, Ordering.isLE]

theorem sort_items_pair_BA_ne : sort_items [vB1, vA1] ≠ [vB1, vA1] := by
  rw [sort_items_pair_BA]
  intro h
  exact absurd (congrArg (·.map Item.video_id) h) (by decide)

theorem sort_already_check_witness :
    (sortReportsAlready [vB1, vA1] = true ↔
      sort_items [vB1, vA1] = [vB1, vA1])
    ∧ (sort_items [vB1, vA1] ≠ [vB1, vA1])
    ∧ (sortActions false [vB1, vA1])[0 + 1]? =
        some (.reorder "p1" 0) := by
  refine ⟨(sort_already_check [vB1, vA1]).1, sort_items_pair_BA_ne, ?_⟩
  have := (sort_already_check [vB1, vA1]).2.2 sort_items_pair_BA_ne 0 vA1
    (by rw [sort_items_pair_BA]; rfl)
  simpa [vA1] using this

/-! ## Dry-run frame property -/

/-- Under dry-run, `sort` always fetches once and reports once — whether it
would have reordered or not. -/
theorem sortActions_dry (st : List Item) :
    sortActions true st = [.fetch, .report] := by
  simp [sortActions]

/-- Every action of `prune`'s per-decision tail is a report or a delete. -/
theorem decisionActions_mem (d : Bool) (p : Item × Decision) (a : Action)
    (ha : a ∈ decisionActions d p) :
    a = .report ∨ a = .delete p.1.playlist_item_id := by
  unfold decisionActions at ha
  split at ha
  · simp at ha
  · split at ha <;> simp_all

/-- Under dry-run, a decision's trace contains nothing but reports. -/
theorem decisionActions_dry_mem (p : Item × Decision) (a : Action)
    (ha : a ∈ decisionActions true p) : a = .report := by
  unfold decisionActions at ha
  split at ha
  · simp at ha
  · simp at ha
    exact ha

/-- Under dry-run, every removal decision still produces its report. -/
theorem decisionActions_dry_report (p : Item × Decision)
    (h : p.2 ≠ .keep) : decisionActions true p = [.report] := by
  unfold decisionActions
  split
  · simp_all
  · rfl

/-- Both fetches of `prune` happen regardless of dry-run: the trace counts
exactly two fetch actions either way (and `sort` exactly one). -/
theorem count_fetch_reorders (l : List Item) :
    (l.enum.map fun p => Action.reorder p.2.playlist_item_id p.1).count
      Action.fetch = 0 := by
  rw [List.count_eq_zero]
  intro hmem
  rcases List.mem_map.1 hmem with ⟨q, _, hq⟩
  exact absurd hq (by simp)

theorem count_fetch_sortActions (d : Bool) (st : List Item) :
    (sortActions d st).count .fetch = 1 := by
  by_cases hs : sort_items st = st
  · cases d <;> simp [sortActions, hs, List.count_cons]
  · cases d <;>
      simp [sortActions, hs, List.count_cons, count_fetch_reorders]

theorem count_fetch_pruneActions (d : Bool) (k : Nat) (st : List Item) :
    (pruneActions d k st).count .fetch = 2 := by
  unfold pruneActions
  rw [List.count_append, count_fetch_sortActions, List.count_cons_self]
  have : ((classify k 0 (pruneWalk d st)).flatMap
      (decisionActions d)).count .fetch = 0 := by
    rw [List.count_eq_zero]
    intro hmem
    rcases List.mem_flatMap.1 hmem with ⟨p, _, hp⟩
    rcases decisionActions_mem d p .fetch hp with h | h <;> simp at h
  omega

/-- C7: under dry-run neither `sort` nor `prune` issues a mutating call
(no reorder, no delete); the fetches still happen exactly as in a real run
(one for `sort`, two for `prune`), and a report stands in where a mutation
would have been issued. -/
theorem dry_run_frame (st : List Item) (k : Nat) :
    ((sortActions true st).all (fun a => !a.isMutating) = true)
    ∧ ((pruneActions true k st).all (fun a => !a.isMutating) = true)
    ∧ ((sortActions true st).count .fetch =
        (sortActions false st).count .fetch)
    ∧ ((pruneActions true k st).count .fetch =
        (pruneActions false k st).count .fetch)
    ∧ (sort_items st ≠ st → .report ∈ sortActions true st)
    ∧ (∀ p ∈ classify k 0 (pruneWalk true st), p.2 ≠ .keep →
        decisionActions true p = [.report]) := by
  refine ⟨?_, ?_, ?_, ?_, ?_, ?_⟩
  · rw [sortActions_dry]; rfl
  · rw [List.all_eq_true]
    intro a ha
    unfold pruneActions at ha
    rcases List.mem_append.1 ha with h | h
    · rw [sortActions_dry] at h
      rcases List.mem_cons.1 h with h | h
      · rw [h]; rfl
      · rcases List.mem_cons.1 h with h | h
        · rw [h]; rfl
        · simp at h
    · rcases List.mem_cons.1 h with h | h
      · rw [h]; rfl
      · rcases List.mem_flatMap.1 h with ⟨p, _, hp⟩
        rw [decisionActions_dry_mem p a hp]
        rfl
  · rw [count_fetch_sortActions, count_fetch_sortActions]
  · rw [count_fetch_pruneActions, count_fetch_pruneActions]
  · intro _
    rw [sortActions_dry]
    simp
  · intro p _ hk
    exact decisionActions_dry_report p hk

theorem dry_run_frame_witness :
    (sort_items [vB1, vA1] ≠ [vB1, vA1])
    ∧ Action.report ∈ sortActions true [vB1, vA1]
    ∧ ((vA1, Decision.removeSurplus) ∈
        classify 0 0 (pruneWalk true [vB1, vA1]))
    ∧ decisionActions true (vA1, Decision.removeSurplus) =
        [Action.report] := by
  have hwalk : pruneWalk true [vB1, vA1] = [vB1, vA1] := by
    rw [pruneWalk, sortActions_dry]
    rfl
  have hmem : (vA1, Decision.removeSurplus) ∈
      classify 0 0 (pruneWalk true [vB1, vA1]) := by
    rw [hwalk]
    decide
  exact ⟨sort_items_pair_BA_ne,
    (dry_run_frame [vB1, vA1] 0).2.2.2.2.1 sort_items_pair_BA_ne,
    hmem,
    (dry_run_frame [vB1, vA1] 0).2.2.2.2.2 (vA1, .removeSurplus) hmem
      (by decide)⟩

/-! ## Prune orchestration: the reorder pass really sorts the remote -/

theorem insertIdx_length_append {α : Type} (pre xs : List α) (a : α) :
    List.insertIdx pre.length a (pre ++ xs) = pre ++ a :: xs := by
  induction pre with
  | nil => rfl
  | cons b pre ih => simpa [List.insertIdx_succ_cons] using ih

/-- Distinct playlist-item ids: no item of `l1` carries the id of an item
found in `l2`. -/
theorem pid_fresh {l1 l2 : List Item} {o : Item}
    (hnodup : ((l1 ++ l2).map Item.playlist_item_id).Nodup)
    (ho : o ∈ l2) :
    ∀ x ∈ l1, ¬(x.playlist_item_id == o.playlist_item_id) = true := by
  intro x hx hpx
  rw [beq_iff_eq] at hpx
  rw [List.map_append] at hnodup
  exact List.disjoint_of_nodup_append hnodup
    (List.mem_map_of_mem _ hx) (hpx ▸ List.mem_map_of_mem _ ho)

/-- A reorder call for `o`'s entry with position `pre.length`, against a
remote state whose first `pre.length` entries do not carry `o`'s id, pulls
`o` out of the tail and lands it exactly at index `pre.length`. -/
theorem moveEntry_to_position (pre l1 l2 : List Item) (o : Item)
    (hA : ∀ x ∈ pre, ¬(x.playlist_item_id == o.playlist_item_id) = true)
    (hB : ∀ x ∈ l1, ¬(x.playlist_item_id == o.playlist_item_id) = true) :
    moveEntry (pre ++ (l1 ++ o :: l2)) o.playlist_item_id pre.length
      = pre ++ o :: (l1 ++ l2) := by
  unfold moveEntry
  have hfind : (pre ++ (l1 ++ o :: l2)).find?
      (fun i => i.playlist_item_id == o.playlist_item_id) = some o := by
    rw [List.find?_append, List.find?_eq_none.2 hA, Option.none_or,
      List.find?_append, List.find?_eq_none.2 hB, Option.none_or]
    exact List.find?_cons_of_pos _ (by simp)
  rw [hfind, List.eraseP_append_right _ hA, List.eraseP_append_right _ hB,
    List.eraseP_cons_of_pos (by simp)]
  exact insertIdx_length_append pre (l1 ++ l2) o

/-- The reorder loop of `sort`, issued against any remote permutation of the
target order (with pairwise-distinct entry ids), leaves the remote exactly
in the target order: moving the item of sorted index `i` to position `i`,
for `i = 0, 1, ...`, extends the correctly-placed prefix one item at a
time. -/
theorem applyActs_enumFrom_reorders (out : List Item) :
    ∀ pre rest : List Item, List.Perm rest out →
      ((pre ++ rest).map Item.playlist_item_id).Nodup →
      applyActs (pre ++ rest)
        ((List.enumFrom pre.length out).map
          fun q => Action.reorder q.2.playlist_item_id q.1) = pre ++ out := by
  induction out with
  | nil =>
    intro pre rest hperm _
    rw [List.perm_nil.1 hperm]
    rfl
  | cons o out' ih =>
    intro pre rest hperm hnodup
    have hmem : o ∈ rest := hperm.symm.subset (List.mem_cons_self o out')
    obtain ⟨l1, l2, hrest⟩ := List.append_of_mem hmem
    subst hrest
    have hA : ∀ x ∈ pre, ¬(x.playlist_item_id == o.playlist_item_id) = true :=
      pid_fresh hnodup (by simp)
    have hrestNodup : ((l1 ++ o :: l2).map Item.playlist_item_id).Nodup := by
      rw [List.map_append] at hnodup
      exact (List.nodup_append.1 hnodup).2.1
    have hB : ∀ x ∈ l1, ¬(x.playlist_item_id == o.playlist_item_id) = true :=
      pid_fresh hrestNodup (List.mem_cons_self o l2)
    have hstep : applyAct (pre ++ (l1 ++ o :: l2))
        (Action.reorder o.playlist_item_id pre.length)
        = (pre ++ [o]) ++ (l1 ++ l2) := by
      show moveEntry (pre ++ (l1 ++ o :: l2)) o.playlist_item_id pre.length
        = (pre ++ [o]) ++ (l1 ++ l2)
      rw [moveEntry_to_position pre l1 l2 o hA hB]
      simp
    have hperm' : List.Perm (l1 ++ l2) out' :=
      (List.Perm.trans List.perm_middle.symm hperm).cons_inv
    have hpermState : List.Perm (pre ++ (l1 ++ o :: l2))
        ((pre ++ [o]) ++ (l1 ++ l2)) := by
      rw [List.append_assoc pre [o] (l1 ++ l2)]
      exact List.Perm.append_left pre
        (List.Perm.trans List.perm_middle (List.Perm.refl _))
    have hnodup' : (((pre ++ [o]) ++ (l1 ++ l2)).map
        Item.playlist_item_id).Nodup :=
      (hpermState.map Item.playlist_item_id).nodup hnodup
    rw [List.enumFrom_cons, List.map_cons]
    show applyActs
        (applyAct (pre ++ (l1 ++ o :: l2))
          (Action.reorder o.playlist_item_id pre.length))
        ((List.enumFrom (pre.length + 1) out').map
          fun q => Action.reorder q.2.playlist_item_id q.1) = pre ++ o :: out'
    rw [hstep]
    have hlen : pre.length + 1 = (pre ++ [o]).length := by simp
    rw [hlen, ih (pre ++ [o]) (l1 ++ l2) hperm' hnodup']
    simp

/-- The sequence `prune`'s second fetch sees, in a real (non-dry-run) run
on a playlist with distinct entry ids, is exactly the canonical sort. -/
theorem pruneWalk_false (st : List Item)
    (hnodup : (st.map Item.playlist_item_id).Nodup) :
    pruneWalk false st = sort_items st := by
  unfold pruneWalk
  by_cases hs : sort_items st = st
  · have ha : sortActions false st = [.fetch, .report] := by
      simp [sortActions, hs]
    rw [ha, hs]
    rfl
  · have ha : sortActions false st = .fetch :: ((sort_items st).enum.map
        fun q => Action.reorder q.2.playlist_item_id q.1) := by
      simp [sortActions, hs]
    rw [ha]
    have happ := applyActs_enumFrom_reorders (sort_items st) [] st
      (sort_items_perm st).symm (by simpa using hnodup)
    simpa [List.enum] using happ

/-- The playlist-item ids targeted by the delete calls of a trace, in trace
order. -/
def deleteTargets (acts : List Action) : List String :=
  acts.filterMap fun a =>
    match a with
    | .delete pid => some pid
    | _ => none

/-- The delete calls of a non-dry-run decision walk target exactly the
items marked for removal, in walk order. -/
theorem deleteTargets_decisions (l : List (Item × Decision)) :
    deleteTargets (l.flatMap (decisionActions false)) =
      (l.filter fun p => p.2 != Decision.keep).map
        fun p => p.1.playlist_item_id := by
  induction l with
  | nil => rfl
  | cons p l ih =>
    rw [List.flatMap_cons]
    unfold deleteTargets at ih ⊢
    rw [List.filterMap_append, List.filter_cons]
    rcases hp : p.2 with _ | _ | _ | _ <;>
      simp [decisionActions, hp, ih]

/-- The sort pass never issues a delete. -/
theorem deleteTargets_sortActions (d : Bool) (st : List Item) :
    deleteTargets (sortActions d st) = [] := by
  unfold deleteTargets
  rw [List.filterMap_eq_nil_iff]
  intro a ha
  unfold sortActions at ha
  rcases List.mem_cons.1 ha with h | h
  · rw [h]
  · split at h
    · rcases h with _ | ⟨_, h⟩
      · rfl
      · cases h
    · split at h
      · rcases h with _ | ⟨_, h⟩
        · rfl
        · cases h
      · rcases List.mem_map.1 h with ⟨q, _, hq⟩
        rw [← hq]

/-- C4 amended: a non-dry-run `prune` on a playlist with pairwise-distinct
playlist-item ids first performs a full sort, then re-fetches — and the
re-fetched sequence really is the freshly sorted canonical order — then
walks it with the classifier, its trace being the sort trace, a fetch,
and the per-decision actions in sorted order; the deletes issued are
exactly one per removed item, in sorted order.  (Under dry-run the sort
issues no reorders, so the re-fetched sequence keeps the original remote
order; see the counterexample.) -/
theorem prune_sorts_then_deletes (st : List Item) (k : Nat)
    (hnodup : (st.map Item.playlist_item_id).Nodup) :
    pruneWalk false st = sort_items st
    ∧ pruneActions false k st = sortActions false st ++ .fetch ::
        (classify k 0 (sort_items st)).flatMap (decisionActions false)
    ∧ deleteTargets (pruneActions false k st) =
        ((classify k 0 (sort_items st)).filter
          fun p => p.2 != Decision.keep).map
          fun p => p.1.playlist_item_id := by
  have hw := pruneWalk_false st hnodup
  refine ⟨hw, ?_, ?_⟩
  · unfold pruneActions
    rw [hw]
  · unfold pruneActions
    rw [hw]
    unfold deleteTargets
    rw [List.filterMap_append]
    have h1 : deleteTargets (sortActions false st) = [] :=
      deleteTargets_sortActions false st
    unfold deleteTargets at h1
    rw [h1, List.filterMap_cons_none (by rfl), List.nil_append]
    exact deleteTargets_decisions (classify k 0 (sort_items st))

theorem prune_sorts_then_deletes_witness :
    (([vB1, vA1].map Item.playlist_item_id).Nodup)
    ∧ (pruneWalk false [vB1, vA1] = sort_items [vB1, vA1]
      ∧ pruneActions false 0 [vB1, vA1] = sortActions false [vB1, vA1] ++
          .fetch :: (classify 0 0 (sort_items [vB1, vA1])).flatMap
            (decisionActions false)
      ∧ deleteTargets (pruneActions false 0 [vB1, vA1]) =
          ((classify 0 0 (sort_items [vB1, vA1])).filter
            fun p => p.2 != Decision.keep).map
            fun p => p.1.playlist_item_id) :=
  ⟨by decide, prune_sorts_then_deletes [vB1, vA1] 0 (by decide)⟩

/-- C4 counterexample: under dry-run (which the claim explicitly includes),
the initial sort issues no reorders, so the sequence the classifier walks
is the original remote order, not the freshly sorted canonical order — and
no delete is issued even though an item is marked for removal. -/
theorem prune_dry_run_counterexample :
    (pruneWalk true [vB1, vA1] ≠ sort_items [vB1, vA1])
    ∧ ((vA1, Decision.removeSurplus) ∈
        classify 0 0 (pruneWalk true [vB1, vA1]))
    ∧ deleteTargets (pruneActions true 0 [vB1, vA1]) = [] := by
  have hwalk : pruneWalk true [vB1, vA1] = [vB1, vA1] := by
    rw [pruneWalk, sortActions_dry]
    rfl
  refine ⟨?_, ?_, ?_⟩
  · rw [hwalk, sort_items_pair_BA]
    decide
  · rw [hwalk]
    decide
  · unfold pruneActions
    rw [sortActions_dry, hwalk]
    decide

/-! ## Strict timestamp parsing in `items()` -/

/-- A fetched video record carrying a present but malformed timestamp makes
`mkItem` fail. -/
theorem mkItem_error_of_malformed (parse : String → Option Int)
    (e : RawEntry) (v : RawVideo) (hv : e.videos.head? = some v)
    (d : RawLiveStreamingDetails) (hd : v.live_streaming_details = some d)
    (hbad : (∃ s, d.scheduled_start_time = some s ∧ parse s = none)
          ∨ (∃ s, d.actual_start_time = some s ∧ parse s = none)) :
    ∃ msg, mkItem parse e = Except.error msg := by
  unfold mkItem
  rw [hv]
  dsimp only
  rw [hd]
  dsimp only
  rcases hbad with ⟨s, hs, hps⟩ | ⟨s, hs, hps⟩
  · rw [hs]
    simp [parseOptTime, hps]
  · cases hsst : parseOptTime parse d.scheduled_start_time with
    | error m => exact ⟨m, rfl⟩
    | ok sst =>
      rw [hs]
      simp [parseOptTime, hps]

/-- An error on any element aborts the whole `mapM`. -/
theorem mapM_error_of_mem {α β : Type} (f : α → Except String β)
    (l : List α) (a : α) (ha : a ∈ l) (msg : String)
    (hf : f a = .error msg) :
    ∃ msg2, l.mapM f = .error msg2 := by
  induction l with
  | nil => cases ha
  | cons b l ih =>
    rcases List.mem_cons.1 ha with h | h
    · subst h
      refine ⟨msg, ?_⟩
      rw [List.mapM_cons, hf]
      rfl
    · cases hfb : f b with
      | error m =>
        refine ⟨m, ?_⟩
        rw [List.mapM_cons, hfb]
        rfl
      | ok x =>
        obtain ⟨m2, hm⟩ := ih h
        refine ⟨m2, ?_⟩
        rw [List.mapM_cons, hfb, hm]
        rfl

/-- C9: a present timestamp string is parsed strictly.  If the scheduled or
actual start-time string of a fetched record is malformed (the parser
rejects it), the whole `items()` call fails; and whenever `items()`
succeeds, a present string ends up as the parsed value — never silently as
an absent timestamp. -/
theorem items_strict_parse (parse : String → Option Int)
    (entries : List RawEntry) (e : RawEntry) (he : e ∈ entries)
    (v : RawVideo) (hv : e.videos.head? = some v)
    (d : RawLiveStreamingDetails) (hd : v.live_streaming_details = some d) :
    (((∃ s, d.scheduled_start_time = some s ∧ parse s = none) ∨
      (∃ s, d.actual_start_time = some s ∧ parse s = none)) →
      ∃ msg, itemsOf parse entries = Except.error msg)
    ∧ (∀ it, mkItem parse e = Except.ok it →
        (∀ s, d.scheduled_start_time = some s →
          ∃ t, parse s = some t ∧ it.scheduled_start_time = some t)
        ∧ (∀ s, d.actual_start_time = some s →
          ∃ t, parse s = some t ∧ it.actual_start_time = some t)) := by
  constructor
  · intro hbad
    obtain ⟨msg, hmsg⟩ := mkItem_error_of_malformed parse e v hv d hd hbad
    exact mapM_error_of_mem (mkItem parse) entries e he msg hmsg
  · intro it hok
    unfold mkItem at hok
    rw [hv] at hok
    dsimp only at hok
    rw [hd] at hok
    dsimp only at hok
    cases hsst : parseOptTime parse d.scheduled_start_time with
    | error m => rw [hsst] at hok; cases hok
    | ok sst =>
      rw [hsst] at hok
      cases hast : parseOptTime parse d.actual_start_time with
      | error m => rw [hast] at hok; cases hok
      | ok ast =>
        rw [hast] at hok
        cases hok
        constructor
        · intro s hs
          rw [hs] at hsst
          unfold parseOptTime at hsst
          dsimp only at hsst
          cases hps : parse s with
          | none => rw [hps] at hsst; cases hsst
          | some t =>
            rw [hps] at hsst
            cases hsst
            exact ⟨t, rfl, rfl⟩
        · intro s hs
          rw [hs] at hast
          unfold parseOptTime at hast
          dsimp only at hast
          cases hps : parse s with
          | none => rw [hps] at hast; cases hast
          | some t =>
            rw [hps] at hast
            cases hast
            exact ⟨t, rfl, rfl⟩

/-- Fixture: a live-streaming-details record whose scheduled start time is
a malformed string. -/
def rawBadDetails : RawLiveStreamingDetails :=
  { scheduled_start_time := some "bad", actual_start_time := none }

/-- Fixture: the fetched video carrying `rawBadDetails`. -/
def rawBadVideo : RawVideo :=
  { live_streaming_details := some rawBadDetails, content_details := none }

/-- Fixture: a playlist entry whose detail lookup returned `rawBadVideo`. -/
def rawBadEntry : RawEntry :=
  { video_id := "v9", playlist_item_id := "p9", title := "video 9"
    videos := [rawBadVideo] }

/-- Fixture parser: accepts only the string "good". -/
def parseFixture : String → Option Int :=
  fun s => if s = "good" then some 7 else none

theorem items_strict_parse_witness :
    (rawBadEntry ∈ [rawBadEntry])
    ∧ rawBadEntry.videos.head? = some rawBadVideo
    ∧ rawBadVideo.live_streaming_details = some rawBadDetails
    ∧ (∃ s, rawBadDetails.scheduled_start_time = some s ∧
        parseFixture s = none)
    ∧ (∃ msg, itemsOf parseFixture [rawBadEntry] = Except.error msg) :=
  ⟨List.mem_cons_self _ _, rfl, rfl,
    ⟨"bad", rfl, by simp [parseFixture]⟩,
    (items_strict_parse parseFixture [rawBadEntry] rawBadEntry
        (List.mem_cons_self _ _) rawBadVideo rfl rawBadDetails rfl).1
      (Or.inl ⟨"bad", rfl, by simp [parseFixture]⟩)⟩

/-- C10: a playlist entry whose per-video detail lookup returns an empty
video list (e.g. a deleted video) becomes an `Item` with both timestamps
absent and `blocked = false`; such an item lands in Tier C of the
comparator and the classifier removes it as "unscheduled", never as
"blocked". -/
theorem items_deleted_video (parse : String → Option Int)
    (vid pid ttl : String) :
    mkItem parse (RawEntry.mk vid pid ttl []) =
      Except.ok (Item.mk vid pid ttl none none false)
    ∧ tier (Item.mk vid pid ttl none none false) = 2
    ∧ ∀ k n (l : List Item) (dec : Decision),
        (Item.mk vid pid ttl none none false, dec) ∈ classify k n l →
        dec = .removeUnscheduled := by
  refine ⟨rfl, rfl, ?_⟩
  intro k n l dec hmem
  have h := classify_tierC_decision k n l _ hmem rfl rfl
  simpa using h

theorem items_deleted_video_witness :
    mkItem parseFixture (RawEntry.mk "v4" "p4" "video 4" []) =
      Except.ok vC1
    ∧ tier vC1 = 2
    ∧ ((vC1, Decision.removeUnscheduled) ∈ classify 0 0 [vC1])
    ∧ Decision.removeUnscheduled = Decision.removeUnscheduled :=
  ⟨(items_deleted_video parseFixture "v4" "p4" "video 4").1,
    (items_deleted_video parseFixture "v4" "p4" "video 4").2.1,
    by decide,
    (items_deleted_video parseFixture "v4" "p4" "video 4").2.2 0 0 [vC1]
      Decision.removeUnscheduled (by decide)⟩

end StreamInspector
